import Mathlib

/-!
Verification of the Corellian Spike Sabacc game core
(`src/sabacc_droid/corellian_spike.py`).

The Python code is shallowly embedded: hands and decks are `List Int`
(Python lists of ints), fallible operations return `Option` (a `none`
models a raised exception), and the hand evaluator's tie-breaker tuples —
which in Python may contain `float('-inf')` alongside ints — are lists of
an explicit two-constructor type `TB`.
-/

/-- A tie-breaker entry as produced by `evaluate_hand`: either a Python int
or `float('-inf')` (used when a hand has no positive cards). -/
inductive TB where
  | ninf : TB
  | int (i : Int) : TB
deriving DecidableEq, Repr

/-- Strict `<` on tie-breaker entries, as Python compares
`float('-inf')` with ints: `-inf` is below every int. -/
def tbLtB : TB → TB → Bool
  | TB.ninf, TB.ninf => false
  | TB.ninf, TB.int _ => true
  | TB.int _, TB.ninf => false
  | TB.int a, TB.int b => decide (a < b)

/-- Lexicographic strict `<` on tie-breaker tuples, as Python compares
tuples: a proper prefix is smaller than the longer tuple. -/
def tbKeyLt : List TB → List TB → Bool
  | [], [] => false
  | [], _ :: _ => true
  | _ :: _, [] => false
  | a :: as, b :: bs => tbLtB a b || (decide (a = b) && tbKeyLt as bs)

/-- Python's `min` over a non-empty list of ints (`none` models the
`ValueError` that `min` raises on an empty sequence). -/
def listMin : List Int → Option Int
  | [] => none
  | a :: as =>
    match listMin as with
    | none => some a
    | some m => some (min a m)

/-- Python's `max` over a non-empty list of ints (`none` models the
`ValueError` raised on an empty sequence). -/
def listMax : List Int → Option Int
  | [] => none
  | a :: as =>
    match listMax as with
    | none => some a
    | some m => some (max a m)

/-- Python's `sorted(cards)` (ascending). -/
def sortCards (cards : List Int) : List Int :=
  List.insertionSort (· ≤ ·) cards

/-- The multiset of absolute card values (`abs_counts` is built from
these): `abs(c)` for each card `c`. -/
def absMap (cards : List Int) : List Int :=
  cards.map (fun c => |c|)

/-- The distinct absolute card values, i.e. the keys of the Python dict
`abs_counts`. -/
def absVals (cards : List Int) : List Int :=
  (absMap cards).dedup

/-- `abs_counts.get(a, 0)`: how many cards have absolute value `a`. -/
def absCount (cards : List Int) (a : Int) : Nat :=
  (absMap cards).count a

/-- The Yee-Haa pair test:
`any(count >= 2 for value, count in abs_counts.items() if value != 0)`. -/
def hasYeeHaaPair (cards : List Int) : Bool :=
  (absVals cards).any (fun a => decide (a ≠ 0) && decide (2 ≤ absCount cards a))

/-- The Rule of Two count:
`len([count for count in abs_counts.values() if count >= 2])`. -/
def ruleOfTwoCount (cards : List Int) : Nat :=
  ((absVals cards).filter (fun a => decide (2 ≤ absCount cards a))).length

/-- The Sabacc Pair test: `any(counts.get(value, 0) >= 1 and
counts.get(-value, 0) >= 1 for value in set(cards) if value > 0)`. -/
def hasSabaccPair (cards : List Int) : Bool :=
  cards.dedup.any (fun v =>
    decide (0 < v) && (decide (1 ≤ cards.count v) && decide (1 ≤ cards.count (-v))))

/-- `min(abs(c) for c in cards if c != 0)`. -/
def minAbsNonzero (cards : List Int) : Option Int :=
  listMin (absMap (cards.filter (fun c => decide (c ≠ 0))))

/-- `min(abs(c) for c in cards)`. -/
def minAbsAll (cards : List Int) : Option Int :=
  listMin (absMap cards)

/-- `positive_cards = [c for c in cards if c > 0]`. -/
def posCards (cards : List Int) : List Int :=
  cards.filter (fun c => decide (0 < c))

/-- `-max(positive_cards) if positive_cards else float('-inf')`. -/
def posMaxTB (cards : List Int) : TB :=
  match listMax (posCards cards) with
  | some m => TB.int (-m)
  | none => TB.ninf

/-- The Nulrhek comparison key `(10, abs(total), 0 if total > 0 else 1,
-len(cards), -sum(positive_cards), -max(positive_cards) or -inf)`. -/
def nulrhekKey (cards : List Int) : List TB :=
  [TB.int 10, TB.int |cards.sum|, TB.int (if 0 < cards.sum then 0 else 1),
   TB.int (-(cards.length : Int)), TB.int (-(posCards cards).sum), posMaxTB cards]

/-- `CorelliaGameView.evaluate_hand`: returns the comparison key
`(hand_rank, *tie_breakers)`, the hand type name, and the total.
`none` models the `ValueError` raised by `min` on an empty sequence
(reachable only for the empty hand). -/
def evaluate_hand (cards : List Int) : Option (List TB × String × Int) :=
  if cards.sum = 0 then
    if cards.count 0 = 2 ∧ cards.length = 2 then
      some ([TB.int 1], "Pure Sabacc", cards.sum)
    else if sortCards cards = [-10, -10, 0, 10, 10] then
      some ([TB.int 2], "Full Sabacc", cards.sum)
    else if cards.count 0 = 1 ∧ hasYeeHaaPair cards = true then
      match minAbsNonzero cards with
      | some m => some ([TB.int 3, TB.int m], "Yee-Haa", cards.sum)
      | none => none
    else if 2 ≤ ruleOfTwoCount cards then
      match minAbsAll cards with
      | some m => some ([TB.int 4, TB.int m], "Rule of Two", cards.sum)
      | none => none
    else if hasSabaccPair cards = true then
      match minAbsAll cards with
      | some m => some ([TB.int 5, TB.int m], "Sabacc Pair", cards.sum)
      | none => none
    else
      match minAbsAll cards with
      | some m =>
        some ([TB.int 6, TB.int m, TB.int (-(cards.length : Int)),
               TB.int (-(posCards cards).sum), posMaxTB cards], "Sabacc", cards.sum)
      | none => none
  else
    some (nulrhekKey cards, "Nulrhek", cards.sum)

/-- `evaluate_hand h1` yields a strictly better (smaller) comparison key
than `evaluate_hand h2`. -/
def evalKeyLt (h1 h2 : List Int) : Prop :=
  ∃ r1 r2, evaluate_hand h1 = some r1 ∧ evaluate_hand h2 = some r2 ∧
    tbKeyLt r1.1 r2.1 = true

/-- `Player.draw_card`: pop the last card of the deck (`deck.pop()`) and
append it to the hand; `none` models the `ValueError` raised when the
deck is empty (no mutation happens in that case). -/
def draw_card (hand deck : List Int) : Option (List Int × List Int) :=
  match deck.getLast? with
  | none => none
  | some c => some (hand ++ [c], deck.dropLast)

/-- `Player.discard_card`: refuse when the hand has at most one card,
otherwise remove the first occurrence of `card` if present.
Returns the success flag and the resulting hand. -/
def discard_card (hand : List Int) (card : Int) : Bool × List Int :=
  if hand.length ≤ 1 then (false, hand)
  else if hand.contains card then (true, hand.erase card)
  else (false, hand)

/-- `Player.replace_card`: when `card in self.cards and deck`, remove the
first occurrence of `card` and draw from the deck; otherwise fail with
nothing changed.  Returns the success flag, the new hand and the new deck. -/
def replace_card (hand : List Int) (card : Int) (deck : List Int) :
    Bool × List Int × List Int :=
  if hand.contains card then
    match deck.getLast? with
    | some c => (true, hand.erase card ++ [c], deck.dropLast)
    | none => (false, hand, deck)
  else (false, hand, deck)

/-- `CorelliaGameView.generate_deck` before the `random.shuffle` call:
three copies of each of +1..+10, three copies of each of -1..-10, and
two zeros.  The shuffle is a uniformly random permutation, so a
generated deck is any permutation of this list. -/
def generate_deck : List Int :=
  ((List.range' 1 10).map (fun i => (i : Int))).flatMap (fun i => List.replicate 3 i)
    ++ ((List.range' 1 10).map (fun i => (i : Int))).flatMap (fun i => List.replicate 3 (-i))
    ++ [0, 0]

/-- `n` successive `draw_card` calls, accumulating the drawn cards in
`hand`; `none` models a `ValueError` from an exhausted deck. -/
def drawN : Nat → List Int → List Int → Option (List Int × List Int)
  | 0, hand, deck => some (hand, deck)
  | n + 1, hand, deck =>
    match draw_card hand deck with
    | none => none
    | some (h, d) => drawN n h d

/-- The replace branch of `CardSelectView.make_callback`: it pops the
selected index from the hand and only then calls `Player.draw_card`.
When the deck is empty the draw raises *after* the pop, so the hand is
left one card short; the `Bool` records whether the callback completed
without an exception. -/
def ui_replace (hand deck : List Int) (i : Nat) : List Int × List Int × Bool :=
  match draw_card (hand.eraseIdx i) deck with
  | some (h, d) => (h, d, true)
  | none => (hand.eraseIdx i, deck, false)

/-- The round/turn bookkeeping of `CorelliaGameView`: the current turn
index (`-1` before the first turn), the round counters, the `first_turn`
flag, and whether `end_game` has been triggered. -/
structure GameProg where
  idx : Int
  roundsCompleted : Nat
  totalRounds : Nat
  firstTurn : Bool
  ended : Bool
deriving DecidableEq, Repr

/-- The state of `CorelliaGameView` right after `start_game_button`
initialises the counters (`current_player_index = -1`,
`rounds_completed = 1`, `first_turn = True`). -/
def startState (totalRounds : Nat) : GameProg :=
  { idx := -1, roundsCompleted := 1, totalRounds := totalRounds,
    firstTurn := true, ended := false }

/-- `CorelliaGameView.proceed_to_next_player` with a fixed player count
`numPlayers`: advance the index modulo the player count; when it wraps
to 0 on a non-first turn, bump `rounds_completed` and end the game once
it exceeds `total_rounds`; finally clear `first_turn`. -/
def proceed (numPlayers : Nat) (s : GameProg) : GameProg :=
  let idx := (s.idx + 1) % (numPlayers : Int)
  if idx = 0 ∧ s.firstTurn = false then
    if s.totalRounds < s.roundsCompleted + 1 then
      { s with idx := idx, roundsCompleted := s.roundsCompleted + 1, ended := true }
    else
      { s with idx := idx, roundsCompleted := s.roundsCompleted + 1, firstTurn := false }
  else
    { s with idx := idx, firstTurn := false }

/-- `k` successive `proceed_to_next_player` calls. -/
def proceedIter (numPlayers : Nat) (k : Nat) (s : GameProg) : GameProg :=
  match k with
  | 0 => s
  | k + 1 => proceedIter numPlayers k (proceed numPlayers s)

/-- `start_game_button` sets `solo_game = True` exactly when the game
starts with a single player. -/
def start_solo_flag (numPlayers : Nat) : Bool :=
  numPlayers == 1

/-- `TurnView.junk_button` after the embed is sent: the junking player is
removed from the player list, and `end_game` fires now iff fewer than two
players remain (otherwise play proceeds).  Players are their hands here. -/
def junk_step (players : List (List Int)) (i : Nat) : List (List Int) × Bool :=
  (players.eraseIdx i, decide ((players.eraseIdx i).length < 2))

/-- `CorelliaGameView.end_game`'s player list: when `solo_game` is set,
a fresh AI player ("Lando") draws two cards from the deck and is
appended; otherwise the remaining players are evaluated as they are. -/
def showdown_players (players : List (List Int)) (solo : Bool) (deck : List Int) :
    List (List Int) :=
  if solo then
    match draw_card [] deck with
    | some (h1, d1) =>
      match draw_card h1 d1 with
      | some (h2, _) => players ++ [h2]
      | none => players
    | none => players
  else players

example : evaluate_hand [0, 0] = some ([TB.int 1], "Pure Sabacc", 0) := by decide
example : evaluate_hand [3, -3] = some ([TB.int 5, TB.int 3], "Sabacc Pair", 0) := by decide
example : evaluate_hand [5, -5] = some ([TB.int 5, TB.int 5], "Sabacc Pair", 0) := by decide
example : evaluate_hand [] = none := by decide
example : evaluate_hand [2, -2, 0] = some ([TB.int 3, TB.int 2], "Yee-Haa", 0) := by decide
example : evaluate_hand [10, 10, -10, -10, 0] = some ([TB.int 2], "Full Sabacc", 0) := by decide
example : evaluate_hand [2, -2, 1, -1] =
    some ([TB.int 4, TB.int 1], "Rule of Two", 0) := by decide
example : evaluate_hand [1, 2, -3] =
    some ([TB.int 6, TB.int 1, TB.int (-3), TB.int (-3), TB.int (-2)], "Sabacc", 0) := by decide
example : evaluate_hand [-4, -3] =
    some ([TB.int 10, TB.int 7, TB.int 1, TB.int (-2), TB.int 0, TB.ninf], "Nulrhek", -7) := by
  decide

/-! ## Helper lemmas -/

theorem any_perm {α : Type} (f : α → Bool) {l₁ l₂ : List α} (p : l₁.Perm l₂) :
    l₁.any f = l₂.any f := by
  induction p with
  | nil => rfl
  | cons a _ ih => simp [List.any_cons, ih]
  | swap a b l => simp [List.any_cons, Bool.or_left_comm]
  | trans _ _ ih₁ ih₂ => exact ih₁.trans ih₂

theorem listMin_perm {l₁ l₂ : List Int} (p : l₁.Perm l₂) : listMin l₁ = listMin l₂ := by
  induction p with
  | nil => rfl
  | cons a _ ih => simp only [listMin, ih]
  | swap a b l => simp only [listMin]; cases listMin l <;> simp [min_comm, min_left_comm]
  | trans _ _ ih₁ ih₂ => exact ih₁.trans ih₂

theorem listMax_perm {l₁ l₂ : List Int} (p : l₁.Perm l₂) : listMax l₁ = listMax l₂ := by
  induction p with
  | nil => rfl
  | cons a _ ih => simp only [listMax, ih]
  | swap a b l => simp only [listMax]; cases listMax l <;> simp [max_comm, max_left_comm]
  | trans _ _ ih₁ ih₂ => exact ih₁.trans ih₂

theorem listMin_cons_isSome (a : Int) (l : List Int) : ∃ m, listMin (a :: l) = some m := by
  cases h : listMin l with
  | none => exact ⟨a, by simp [listMin, h]⟩
  | some m => exact ⟨min a m, by simp [listMin, h]⟩

theorem dropLast_append_of_getLast? :
    ∀ (deck : List Int) (c : Int), deck.getLast? = some c → deck.dropLast ++ [c] = deck
  | [], _, h => by simp at h
  | [a], c, h => by
    simp only [List.getLast?_singleton, Option.some.injEq] at h
    simp [h]
  | a :: b :: t, c, h => by
    have ih := dropLast_append_of_getLast? (b :: t) c (by simpa using h)
    simpa [List.dropLast_cons₂] using ih

/-! ## Claim theorems -/

/-- C1: for zero-total hands `evaluate_hand` picks the highest-priority
matching category: `[0,0]` is Pure Sabacc with rank 1 and no
tie-breakers, `[3,-3]` is Sabacc Pair with rank 5 and tie-breaker `[3]`,
and the comparison key of `[3,-3]` is strictly smaller (better) than
that of `[5,-5]`. -/
theorem evaluate_concrete_rankings :
    evaluate_hand [0, 0] = some ([TB.int 1], "Pure Sabacc", 0)
  ∧ evaluate_hand [3, -3] = some ([TB.int 5, TB.int 3], "Sabacc Pair", 0)
  ∧ evaluate_hand [5, -5] = some ([TB.int 5, TB.int 5], "Sabacc Pair", 0)
  ∧ evalKeyLt [3, -3] [5, -5] := by
  refine ⟨by decide, by decide, by decide, ?_⟩
  exact ⟨([TB.int 5, TB.int 3], "Sabacc Pair", 0),
         ([TB.int 5, TB.int 5], "Sabacc Pair", 0), by decide, by decide, by decide⟩

/-- C4 counterexample: with an empty deck, `replace_card` fails even
though the requested card is present in the hand, so success is not
equivalent to mere presence of the card. -/
theorem replace_needs_nonempty_deck :
    (3 : Int) ∈ [(3 : Int)] ∧ (replace_card [3] 3 []).1 = false := by decide

/-- C4 (amended): `replace_card` succeeds iff the card is in the hand
and the deck is non-empty; on success it removes the first occurrence of
the card and appends the drawn card, leaving the hand size unchanged; on
failure nothing changes; and it does not enforce the `size > 1` floor
that `discard_card` enforces (a 1-card hand can replace). -/
theorem replace_card_spec (hand : List Int) (card : Int) (deck : List Int) :
    ((replace_card hand card deck).1 = true ↔ card ∈ hand ∧ deck ≠ [])
  ∧ (∀ c, card ∈ hand → deck.getLast? = some c →
      replace_card hand card deck = (true, hand.erase card ++ [c], deck.dropLast))
  ∧ (card ∈ hand → deck ≠ [] → (replace_card hand card deck).2.1.length = hand.length)
  ∧ ((replace_card hand card deck).1 = false →
      (replace_card hand card deck).2 = (hand, deck))
  ∧ (∀ a d : Int, ∀ rest : List Int, (replace_card [a] a (d :: rest)).1 = true) := by
  have hmem : hand.contains card = true ↔ card ∈ hand := by simp
  have hlast : deck.getLast? = none ↔ deck = [] := List.getLast?_eq_none_iff
  refine ⟨?_, ?_, ?_, ?_, ?_⟩
  · unfold replace_card
    by_cases hc : hand.contains card = true
    · rw [if_pos hc]
      cases hg : deck.getLast? with
      | none => simp [hmem.mp hc, hlast.mp hg]
      | some c =>
        simp only [true_iff, hmem.mp hc, true_and]
        intro hnil
        rw [hnil] at hg
        simp at hg
    · rw [if_neg hc]
      simp only [Bool.false_eq_true, false_iff, not_and]
      intro hm
      exact absurd (hmem.mpr hm) hc
  · intro c hm hg
    unfold replace_card
    rw [if_pos (hmem.mpr hm), hg]
  · intro hm hne
    unfold replace_card
    rw [if_pos (hmem.mpr hm)]
    cases hg : deck.getLast? with
    | none => exact absurd (hlast.mp hg) hne
    | some c =>
      simp only [List.length_append, List.length_singleton]
      have : hand.length ≠ 0 := by
        intro h0
        rw [List.length_eq_zero.mp h0] at hm
        simp at hm
      rw [List.length_erase_of_mem hm]
      omega
  · unfold replace_card
    by_cases hc : hand.contains card = true
    · rw [if_pos hc]
      cases hg : deck.getLast? with
      | none => intro; rfl
      | some c => simp
    · rw [if_neg hc]
      intro
      rfl
  · intro a d rest
    unfold replace_card
    rw [if_pos (by simp : ([a] : List Int).contains a = true)]
    cases hg : (d :: rest).getLast? with
    | none => simp at hg
    | some c => rfl

/-- C5: `discard_card` succeeds iff the card is present and the hand has
more than one card; on success exactly one occurrence of the card is
removed (its count drops by one, all other counts are unchanged, the
length drops by one); on failure — in particular always on a 1-card
hand — the hand is unchanged. -/
theorem discard_card_spec (hand : List Int) (card : Int) :
    ((discard_card hand card).1 = true ↔ card ∈ hand ∧ 1 < hand.length)
  ∧ ((discard_card hand card).1 = true →
       (discard_card hand card).2.count card + 1 = hand.count card
     ∧ (∀ c, c ≠ card → (discard_card hand card).2.count c = hand.count c)
     ∧ (discard_card hand card).2.length + 1 = hand.length)
  ∧ ((discard_card hand card).1 = false → (discard_card hand card).2 = hand)
  ∧ (hand.length = 1 → discard_card hand card = (false, hand)) := by
  have hmem : hand.contains card = true ↔ card ∈ hand := by simp
  refine ⟨?_, ?_, ?_, ?_⟩
  · unfold discard_card
    by_cases hlen : hand.length ≤ 1
    · rw [if_pos hlen]
      simp only [Bool.false_eq_true, false_iff, not_and]
      intro _
      omega
    · rw [if_neg hlen]
      by_cases hc : hand.contains card = true
      · rw [if_pos hc]
        simp only [true_iff]
        exact ⟨hmem.mp hc, by omega⟩
      · rw [if_neg hc]
        simp only [Bool.false_eq_true, false_iff, not_and]
        intro hm
        exact absurd (hmem.mpr hm) hc
  · unfold discard_card
    by_cases hlen : hand.length ≤ 1
    · rw [if_pos hlen]
      simp
    · rw [if_neg hlen]
      by_cases hc : hand.contains card = true
      · rw [if_pos hc]
        intro _
        have hm : card ∈ hand := hmem.mp hc
        have hcnt : 0 < hand.count card := List.count_pos_iff.mpr hm
        refine ⟨?_, ?_, ?_⟩
        · rw [List.count_erase_self]
          omega
        · intro c hne
          simpa using List.count_erase_of_ne hne hand
        · rw [List.length_erase_of_mem hm]
          omega
      · rw [if_neg hc]
        simp
  · unfold discard_card
    by_cases hlen : hand.length ≤ 1
    · rw [if_pos hlen]
      intro
      rfl
    · rw [if_neg hlen]
      by_cases hc : hand.contains card = true
      · rw [if_pos hc]
        simp
      · rw [if_neg hc]
        intro
        rfl
  · intro h1
    unfold discard_card
    rw [if_pos (by omega)]

/-- C6 (bug witness): the replace branch of
`CardSelectView.make_callback` pops the selected card before calling
`Player.draw_card`; with a one-card hand and an exhausted deck the draw
raises after the pop, leaving the hand with zero cards — the `size ≥ 1`
hand invariant is violated. -/
theorem ui_replace_empties_one_card_hand :
    ui_replace [5] [] 0 = ([], [], false) := by decide

/-- C8: in a game started with two players, junking either player
immediately triggers `end_game` with exactly the one remaining player,
and since `solo_game` was determined by the player count at game start
(2 ≠ 1), no AI opponent is synthesized at showdown. -/
theorem two_player_junk_cascade (p1 p2 : List Int) (deck : List Int) :
    junk_step [p1, p2] 0 = ([p2], true)
  ∧ junk_step [p1, p2] 1 = ([p1], true)
  ∧ start_solo_flag 2 = false
  ∧ showdown_players (junk_step [p1, p2] 0).1 (start_solo_flag 2) deck = [p2]
  ∧ (showdown_players (junk_step [p1, p2] 0).1 (start_solo_flag 2) deck).length = 1 := by
  exact ⟨rfl, rfl, rfl, rfl, rfl⟩

/-- C7: with 3 players and 3 total rounds, the first 9 proceed calls
after game start leave the game running (the first call starts turn 1,
calls 2..9 complete turns 1..8) and the 10th call — completing the 9th
turn — triggers the showdown; the very first turn does not bump the
round counter even though it lands on index 0; and in general a proceed
call increments `rounds_completed` exactly when the index wraps to 0 on
a non-first turn. -/
theorem round_progression :
    (∀ k, k ≤ 9 → (proceedIter 3 k (startState 3)).ended = false)
  ∧ (proceedIter 3 10 (startState 3)).ended = true
  ∧ (proceedIter 3 1 (startState 3)).roundsCompleted = 1
  ∧ (∀ s : GameProg, (proceed 3 s).roundsCompleted = s.roundsCompleted + 1 ↔
      ((s.idx + 1) % 3 = 0 ∧ s.firstTurn = false)) := by
  refine ⟨?_, by decide, by decide, ?_⟩
  · intro k hk
    interval_cases k <;> decide
  · intro s
    simp only [proceed, Nat.cast_ofNat]
    split_ifs with h1 h2
    · simpa using h1
    · simpa using h1
    · simp [h1]
      intro hdvd
      cases hb : s.firstTurn with
      | true => rfl
      | false => exact absurd ⟨Int.emod_eq_zero_of_dvd hdvd, hb⟩ h1

/-- A `draw_card` success moves one card from the end of the deck into
the hand, so it preserves the combined multiset of hand and deck. -/
theorem draw_card_perm {hand deck h d : List Int}
    (e : draw_card hand deck = some (h, d)) : (h ++ d).Perm (hand ++ deck) := by
  unfold draw_card at e
  cases hg : deck.getLast? with
  | none => rw [hg] at e; exact absurd e (by simp)
  | some c =>
    rw [hg] at e
    simp only [Option.some.injEq, Prod.mk.injEq] at e
    obtain ⟨rfl, rfl⟩ := e
    have p1 : (hand ++ [c] ++ deck.dropLast).Perm (hand ++ (deck.dropLast ++ [c])) := by
      rw [List.append_assoc]
      exact List.Perm.append_left hand List.perm_append_comm
    rw [dropLast_append_of_getLast? deck c hg] at p1
    exact p1

/-- Any sequence of successful draws preserves the combined multiset of
drawn cards and remaining deck. -/
theorem drawN_perm :
    ∀ (n : Nat) (hand deck h d : List Int),
      drawN n hand deck = some (h, d) → (h ++ d).Perm (hand ++ deck) := by
  intro n
  induction n with
  | zero =>
    intro hand deck h d e
    unfold drawN at e
    simp only [Option.some.injEq, Prod.mk.injEq] at e
    obtain ⟨rfl, rfl⟩ := e
    exact List.Perm.refl _
  | succ m ih =>
    intro hand deck h d e
    unfold drawN at e
    cases hc : draw_card hand deck with
    | none => rw [hc] at e; exact absurd e (by simp)
    | some pr =>
      rw [hc] at e
      exact (ih pr.1 pr.2 h d e).trans (draw_card_perm hc)

/-- C3: a generated deck (any permutation of the canonical list) holds
exactly three copies of each of +1..+10 and -1..-10 and two zeros, 62
cards in all; and after any sequence of draws the multiset union of the
drawn cards and the remaining deck equals the initial 62-card multiset. -/
theorem deck_composition (d : List Int) (hd : d.Perm generate_deck) :
    (∀ v : Int, 1 ≤ v → v ≤ 10 → d.count v = 3 ∧ d.count (-v) = 3)
  ∧ d.count 0 = 2
  ∧ d.length = 62
  ∧ (∀ n h rest, drawN n [] d = some (h, rest) →
      ((h ++ rest : List Int) : Multiset Int) = (generate_deck : Multiset Int)) := by
  refine ⟨?_, ?_, ?_, ?_⟩
  · intro v h1 h10
    rw [hd.count_eq, hd.count_eq]
    interval_cases v <;> exact ⟨by decide, by decide⟩
  · rw [hd.count_eq]
    decide
  · rw [hd.length_eq]
    decide
  · intro n h rest e
    have := (drawN_perm n [] d h rest e).trans hd
    exact Multiset.coe_eq_coe.mpr this

/-- C3 witness: the canonical deck itself (the identity permutation)
satisfies the composition facts, and a zero-draw sequence conserves the
multiset. -/
theorem deck_composition_witness :
    generate_deck.count 0 = 2
  ∧ ((([] ++ generate_deck : List Int)) : Multiset Int) = (generate_deck : Multiset Int) :=
  ⟨(deck_composition generate_deck (List.Perm.refl _)).2.1,
   (deck_composition generate_deck (List.Perm.refl _)).2.2.2 0 [] generate_deck rfl⟩

/-- A hand with nonzero total is always evaluated as Nulrhek with the
`nulrhekKey` comparison key. -/
theorem evaluate_hand_of_sum_ne (cards : List Int) (h : cards.sum ≠ 0) :
    evaluate_hand cards = some (nulrhekKey cards, "Nulrhek", cards.sum) := by
  unfold evaluate_hand
  rw [if_neg h]

/-- C2: among hands with nonzero totals, the one with strictly smaller
absolute total gets a strictly smaller (better) comparison key; with
equal absolute totals the positive total beats the negative one. -/
theorem nulrhek_ordering (h1 h2 : List Int)
    (H1 : h1.sum ≠ 0) (H2 : h2.sum ≠ 0) :
    (|h1.sum| < |h2.sum| → evalKeyLt h1 h2)
  ∧ (|h1.sum| = |h2.sum| → 0 < h1.sum → h2.sum < 0 → evalKeyLt h1 h2) := by
  constructor
  · intro hlt
    refine ⟨(nulrhekKey h1, "Nulrhek", h1.sum), (nulrhekKey h2, "Nulrhek", h2.sum),
      evaluate_hand_of_sum_ne h1 H1, evaluate_hand_of_sum_ne h2 H2, ?_⟩
    simp [nulrhekKey, tbKeyLt, tbLtB, hlt]
  · intro heq hpos hneg
    refine ⟨(nulrhekKey h1, "Nulrhek", h1.sum), (nulrhekKey h2, "Nulrhek", h2.sum),
      evaluate_hand_of_sum_ne h1 H1, evaluate_hand_of_sum_ne h2 H2, ?_⟩
    have hnpos : ¬ 0 < h2.sum := by omega
    simp [nulrhekKey, tbKeyLt, tbLtB, heq, if_pos hpos, if_neg hnpos]

/-- C2 witness: `[1]` (total 1) beats both `[-1]` (equal magnitude,
negative) and `[2]` (larger magnitude). -/
theorem nulrhek_ordering_witness : evalKeyLt [1] [-1] ∧ evalKeyLt [1] [2] :=
  ⟨(nulrhek_ordering [1] [-1] (by decide) (by decide)).2 (by decide) (by decide) (by decide),
   (nulrhek_ordering [1] [2] (by decide) (by decide)).1 (by decide)⟩

/-- Sorting is permutation-invariant: two permuted hands have the same
sorted form. -/
theorem sortCards_perm {l₁ l₂ : List Int} (p : l₁.Perm l₂) :
    sortCards l₁ = sortCards l₂ :=
  List.eq_of_perm_of_sorted
    ((List.perm_insertionSort (fun a b : Int => a ≤ b) l₁).trans
      (p.trans (List.perm_insertionSort (fun a b : Int => a ≤ b) l₂).symm))
    (List.sorted_insertionSort (fun a b : Int => a ≤ b) l₁)
    (List.sorted_insertionSort (fun a b : Int => a ≤ b) l₂)

theorem absCount_perm {l₁ l₂ : List Int} (p : l₁.Perm l₂) :
    absCount l₁ = absCount l₂ :=
  funext fun a => (p.map _).count_eq a

theorem hasYeeHaaPair_perm {l₁ l₂ : List Int} (p : l₁.Perm l₂) :
    hasYeeHaaPair l₁ = hasYeeHaaPair l₂ := by
  unfold hasYeeHaaPair
  rw [show (fun a => decide (a ≠ 0) && decide (2 ≤ absCount l₁ a))
      = (fun a => decide (a ≠ 0) && decide (2 ≤ absCount l₂ a)) by rw [absCount_perm p]]
  exact any_perm _ ((p.map _).dedup)

theorem ruleOfTwoCount_perm {l₁ l₂ : List Int} (p : l₁.Perm l₂) :
    ruleOfTwoCount l₁ = ruleOfTwoCount l₂ := by
  unfold ruleOfTwoCount
  rw [show (fun a => decide (2 ≤ absCount l₁ a))
      = (fun a => decide (2 ≤ absCount l₂ a)) by rw [absCount_perm p]]
  exact (((p.map _).dedup).filter _).length_eq

theorem hasSabaccPair_perm {l₁ l₂ : List Int} (p : l₁.Perm l₂) :
    hasSabaccPair l₁ = hasSabaccPair l₂ := by
  unfold hasSabaccPair
  rw [show (fun v => decide (0 < v) && (decide (1 ≤ l₁.count v) && decide (1 ≤ l₁.count (-v))))
      = (fun v => decide (0 < v) && (decide (1 ≤ l₂.count v) && decide (1 ≤ l₂.count (-v))))
    from funext fun v => by rw [p.count_eq, p.count_eq]]
  exact any_perm _ p.dedup

theorem minAbsNonzero_perm {l₁ l₂ : List Int} (p : l₁.Perm l₂) :
    minAbsNonzero l₁ = minAbsNonzero l₂ :=
  listMin_perm ((p.filter _).map _)

theorem minAbsAll_perm {l₁ l₂ : List Int} (p : l₁.Perm l₂) :
    minAbsAll l₁ = minAbsAll l₂ :=
  listMin_perm (p.map _)

theorem posSum_perm {l₁ l₂ : List Int} (p : l₁.Perm l₂) :
    (posCards l₁).sum = (posCards l₂).sum :=
  (p.filter _).sum_eq

theorem posMaxTB_perm {l₁ l₂ : List Int} (p : l₁.Perm l₂) :
    posMaxTB l₁ = posMaxTB l₂ := by
  unfold posMaxTB posCards
  rw [listMax_perm (p.filter _)]

theorem nulrhekKey_perm {l₁ l₂ : List Int} (p : l₁.Perm l₂) :
    nulrhekKey l₁ = nulrhekKey l₂ := by
  unfold nulrhekKey
  rw [p.sum_eq, p.length_eq, posSum_perm p, posMaxTB_perm p]

/-- C9: `evaluate_hand` depends only on the multiset of card values —
permuting a hand never changes its rank, tie-breakers, hand type or
total. -/
theorem evaluate_hand_perm (l₁ l₂ : List Int) (p : l₁.Perm l₂) :
    evaluate_hand l₁ = evaluate_hand l₂ := by
  unfold evaluate_hand
  rw [p.sum_eq, p.count_eq 0, p.length_eq, sortCards_perm p, hasYeeHaaPair_perm p,
      ruleOfTwoCount_perm p, hasSabaccPair_perm p, minAbsNonzero_perm p, minAbsAll_perm p,
      posSum_perm p, posMaxTB_perm p, nulrhekKey_perm p]

/-- C9 witness: a concrete permuted pair of hands evaluates equally. -/
theorem evaluate_hand_perm_witness :
    evaluate_hand [3, -3, 7] = evaluate_hand [7, 3, -3] :=
  evaluate_hand_perm [3, -3, 7] [7, 3, -3] (by decide)

theorem listMin_eq_none {l : List Int} (h : listMin l = none) : l = [] := by
  cases l with
  | nil => rfl
  | cons a as =>
    obtain ⟨m, hm⟩ := listMin_cons_isSome a as
    rw [hm] at h
    cases h

/-- A true Yee-Haa condition guarantees a nonzero card in the hand, so
the `min` over nonzero absolute values has a nonempty domain. -/
theorem hasYeeHaaPair_exists_nonzero {cards : List Int}
    (h : hasYeeHaaPair cards = true) :
    cards.filter (fun c => decide (c ≠ 0)) ≠ [] := by
  unfold hasYeeHaaPair at h
  rw [List.any_eq_true] at h
  obtain ⟨a, ha, hp⟩ := h
  rw [Bool.and_eq_true, decide_eq_true_eq, decide_eq_true_eq] at hp
  have hmem : a ∈ absMap cards := List.mem_dedup.mp ha
  obtain ⟨c, hc, hac⟩ := List.mem_map.mp hmem
  intro hnil
  have hcne : c ≠ 0 := by
    intro h0
    apply hp.1
    rw [← hac, h0]
    simp
  have hmemf : c ∈ cards.filter (fun c => decide (c ≠ 0)) :=
    List.mem_filter.mpr ⟨hc, by simpa using hcne⟩
  rw [hnil] at hmemf
  cases hmemf

theorem minAbsAll_ne_none {cards : List Int} (h : cards ≠ []) :
    minAbsAll cards ≠ none := by
  intro hn
  exact h (List.map_eq_nil_iff.mp (listMin_eq_none hn))

theorem minAbsNonzero_ne_none {cards : List Int} (h : hasYeeHaaPair cards = true) :
    minAbsNonzero cards ≠ none := by
  intro hn
  exact hasYeeHaaPair_exists_nonzero h (List.map_eq_nil_iff.mp (listMin_eq_none hn))

/-- C10: `evaluate_hand` is defined (returns a result rather than
raising) on every non-empty hand, but the empty hand lies outside its
domain: there the zero-total fallthrough takes `min` over an empty
sequence. -/
theorem evaluate_totality :
    evaluate_hand [] = none
  ∧ ∀ cards : List Int, cards ≠ [] → (evaluate_hand cards).isSome = true := by
  refine ⟨by decide, ?_⟩
  intro cards hne
  unfold evaluate_hand
  by_cases h0 : cards.sum = 0
  · rw [if_pos h0]
    by_cases hp : (cards.count 0 = 2 ∧ cards.length = 2)
    · rw [if_pos hp]
      rfl
    · rw [if_neg hp]
      by_cases hf : sortCards cards = [-10, -10, 0, 10, 10]
      · rw [if_pos hf]
        rfl
      · rw [if_neg hf]
        by_cases hy : (cards.count 0 = 1 ∧ hasYeeHaaPair cards = true)
        · rw [if_pos hy]
          cases hm : minAbsNonzero cards with
          | some m => rfl
          | none => exact absurd hm (minAbsNonzero_ne_none hy.2)
        · rw [if_neg hy]
          by_cases hr : 2 ≤ ruleOfTwoCount cards
          · rw [if_pos hr]
            cases hm : minAbsAll cards with
            | some m => rfl
            | none => exact absurd hm (minAbsAll_ne_none hne)
          · rw [if_neg hr]
            by_cases hs : hasSabaccPair cards = true
            · rw [if_pos hs]
              cases hm : minAbsAll cards with
              | some m => rfl
              | none => exact absurd hm (minAbsAll_ne_none hne)
            · rw [if_neg hs]
              cases hm : minAbsAll cards with
              | some m => rfl
              | none => exact absurd hm (minAbsAll_ne_none hne)
  · rw [if_neg h0]
    rfl

/-- C10 witness: the singleton hand `[3]` evaluates successfully. -/
theorem evaluate_totality_witness : (evaluate_hand [3]).isSome = true :=
  evaluate_totality.2 [3] (by decide)

/-- C4 witness: concrete successful replaces (including on a 1-card
hand) and a failing one that leaves hand and deck unchanged. -/
theorem replace_card_spec_witness :
    (replace_card [5] 5 [2]).1 = true
  ∧ replace_card [5, 6] 5 [2] = (true, [6, 2], [])
  ∧ (replace_card [4] 5 [2]).2 = ([4], [2]) :=
  ⟨(replace_card_spec [5] 5 [2]).1.mpr ⟨by decide, by decide⟩,
   (replace_card_spec [5, 6] 5 [2]).2.1 2 (by decide) (by decide),
   (replace_card_spec [4] 5 [2]).2.2.2.1 (by decide)⟩

/-- C5 witness: a concrete successful discard and the 1-card refusal. -/
theorem discard_card_spec_witness :
    (discard_card [3, 4] 3).1 = true ∧ discard_card [7] 7 = (false, [7]) :=
  ⟨(discard_card_spec [3, 4] 3).1.mpr ⟨by decide, by decide⟩,
   (discard_card_spec [7] 7).2.2.2 (by decide)⟩

/-- C7 witness: after the 9th proceed call the game is still running,
and the first proceed call leaves the round counter at 1. -/
theorem round_progression_witness :
    (proceedIter 3 9 (startState 3)).ended = false
  ∧ ((proceed 3 (startState 3)).roundsCompleted = (startState 3).roundsCompleted + 1 ↔
      (((startState 3).idx + 1) % 3 = 0 ∧ (startState 3).firstTurn = false)) :=
  ⟨round_progression.1 9 (by decide), round_progression.2.2.2 (startState 3)⟩
